import Mathlib

/-!
# Verification of the cogsim cognitive-radio simulator

A shallow embedding of the core of the `cogsim` repository:

* the ReDiSen reputation-weighted consensus algorithm
  (`redisen_basic.py` and the inline copy in `main.py`),
* the synchronous multi-pass simulator
  (`src/cogsim/sync/sync_simulator.py` and the legacy flat `cogsim.py`),
* the event-queue simulator (`src/cogsim/queue/*`).

Floating-point values are modelled as rationals (`ℚ`).  Places where the
Python code raises an exception, or where numpy arithmetic produces
`inf`/`NaN` (which is not a real number and hence not representable in
`ℚ`), are modelled with `Option`/`Except`: `none`/`.error` marks the
non-value outcome and the surrounding doc comments say which one.
-/

/-- `DISCOUNT_FACTOR` (λ) from `redisen_basic.py` line 13 / `main.py` line 17. -/
def DISCOUNT_FACTOR : ℚ := 995 / 1000

/-- `NOISE_FLOOR` from `redisen_basic.py` line 18 / `main.py` line 22. -/
def NOISE_FLOOR : ℚ := -111

/-- `PU_TRANSMIT_POWER` from `redisen_basic.py` line 22 / `main.py` line 26. -/
def PU_TRANSMIT_POWER : ℚ := 80

/-- Python dict lookup `votes[k]` on an association list: the first entry
whose key is `k`, if any.  A `none` result corresponds to a `KeyError`. -/
def lookupVote (votes : List (Nat × ℚ)) (k : Nat) : Option ℚ :=
  (votes.find? (fun p => p.1 = k)).map (fun p => p.2)

/-- `calculate_reputations` from `redisen_basic.py` lines 52-69.

The Python code computes `frac_part = len(neighbor_values) / denominator`
with NO guard on a zero denominator: numpy evaluates `n / 0.0` to `inf`
(with a RuntimeWarning) and then `2 - inf * 0.0` to `NaN`, so when all
votes agree exactly every reputation is `NaN`.  Likewise `np.average([])`
on an empty input is `NaN`.  `NaN`/`inf` are not real numbers, so those
two degenerate outcomes are modelled as `none`; every other input follows
the source expression `2 - frac_part * np.abs(v - avg)` literally. -/
def calculate_reputations (votes : List (Nat × ℚ)) : Option (List (Nat × ℚ)) :=
  if votes = [] then none
  else
    let n : ℚ := votes.length
    let avg : ℚ := (votes.map (fun p => p.2)).sum / n
    let denominator : ℚ := (votes.map (fun p => |p.2 - avg|)).sum
    if denominator = 0 then none
    else some (votes.map (fun p => (p.1, 2 - (n / denominator) * |p.2 - avg|)))

/-- The reputation computation inlined in `CSSUser.step`, `main.py` lines
200-215.  Unlike `calculate_reputations` it substitutes `1.0` for a zero
deviation sum (`main.py` lines 206-207) before dividing, so it is total.
`main.py` only runs it on a non-empty neighbour list (line 200). -/
def cssReputations (votes : List (Nat × ℚ)) : List (Nat × ℚ) :=
  let n : ℚ := votes.length
  let avg : ℚ := (votes.map (fun p => p.2)).sum / n
  let devSum : ℚ := (votes.map (fun p => |p.2 - avg|)).sum
  let denominator : ℚ := if devSum = 0 then 1 else devSum
  votes.map (fun p => (p.1, 2 - n * |p.2 - avg| / denominator))

/-- The inner summation of one refinement round, `redisen_basic.py` lines
156-161: iterate over the reputation entries, reading
`self.other_user_votes[neighbor]` for each.  The keys of the reputation
map are exactly the keys of the vote map (both are built from the same
dict), so the `getD 0` default of the vote lookup is never reached on the
inputs the program produces. -/
def roundDelta (votes reps : List (Nat × ℚ)) (est : ℚ) : ℚ :=
  reps.foldl (fun s p =>
    s + (1 - DISCOUNT_FACTOR) * p.2 * ((lookupVote votes p.1).getD 0 - est)) 0

/-- One refinement round, `redisen_basic.py` lines 155-162: the delta
accumulated over all peers is added to the estimate once. -/
def consensusRound (votes reps : List (Nat × ℚ)) (est : ℚ) : ℚ :=
  est + roundDelta votes reps est

/-- The `for _ in range(150)` loop of `evaluate_neighbors`
(`redisen_basic.py` lines 155-165), also returning the
`sensed_pu_history` list appended to inside the loop. -/
def consensusLoop (votes reps : List (Nat × ℚ)) : Nat → ℚ → ℚ × List ℚ
  | 0, est => (est, [])
  | k + 1, est =>
    let est' := consensusRound votes reps est
    let rest := consensusLoop votes reps k est'
    (rest.1, est' :: rest.2)

/-- `BasicReDiSenSecondaryUser.evaluate_neighbors`, `redisen_basic.py`
lines 149-168, with `USE_REDISEN = True` (line 201).  The initial estimate
is `self.other_user_votes[self]` (line 153): a missing self-entry raises
`KeyError`, modelled as `none`.  A `none` from `calculate_reputations`
(the `NaN` case) poisons every later arithmetic step in Python, so the
whole result is `none` there as well. -/
def evaluate_neighbors (votes : List (Nat × ℚ)) (selfId : Nat) : Option (ℚ × List ℚ) :=
  match lookupVote votes selfId with
  | none => none
  | some v0 =>
    match calculate_reputations votes with
    | none => none
    | some reps => some (consensusLoop votes reps 150 v0)

/-- One refinement round of the inline loop in `CSSUser.step`, `main.py`
lines 218-223: iterate over the neighbour list, reading
`reputations[other_user]` and `self.other_user_votes[other_user]`.  The
neighbour list is exactly the key list of `votes`, so the vote value of
entry `p` is `p.2`; the reputation lookup mirrors the dict access (its
key set equals the vote key set, so `getD 0` is never reached on the
inputs the program produces). -/
def cssRound (votes reps : List (Nat × ℚ)) (est : ℚ) : ℚ :=
  est + votes.foldl (fun s p =>
    s + (1 - DISCOUNT_FACTOR) * ((lookupVote reps p.1).getD 0) * (p.2 - est)) 0

/-- The ReDiSen section of `CSSUser.step`, `main.py` lines 196-223: when
the neighbour list is empty the sensed value is left unchanged (line
200); otherwise the guarded reputations are computed and the estimate is
refined for exactly 150 rounds starting from the caller's own fresh
`sensed_pu_value`. -/
def cssConsensus (votes : List (Nat × ℚ)) (sensed : ℚ) : ℚ :=
  if votes = [] then sensed
  else Nat.iterate (cssRound votes (cssReputations votes)) 150 sensed

/-- Modelled from the spec, §4.3 step 5: one refinement round written as
a single summed delta over all peers, added to the estimate once.  Used
as the specification side of the refinement theorem for the source loop. -/
def specConsensusRound (votes reps : List (Nat × ℚ)) (est : ℚ) : ℚ :=
  est + (reps.map (fun p =>
    (1 - DISCOUNT_FACTOR) * p.2 * ((lookupVote votes p.1).getD 0 - est))).sum

/-- Modelled from the spec, §4.3 steps 4-5: iterate `specConsensusRound`
a fixed number of times from a given initial estimate. -/
def specConsensusIter (votes reps : List (Nat × ℚ)) (k : Nat) (v0 : ℚ) : ℚ :=
  Nat.iterate (specConsensusRound votes reps) k v0

/-- `MaliciousSecondaryUser.sense_pu_value`, `redisen_basic.py` lines
186-198.  `u` models the fresh `np.random.default_rng().uniform()` draw
(one per invocation, in `[0, 1)`); `puPresent` models
`len(primary_users_in_band(current_band_contents)) > 0`.

In the source the `else` branch reads
`super().sense_pu_value(current_band_contents)` WITHOUT a `return`
statement, so the honest reading is computed, discarded, and the method
returns Python `None`; that fall-through is modelled as `none`. -/
def malicious_sense_pu_value (u attack_likelihood : ℚ) (puPresent : Bool) : Option ℚ :=
  if u < attack_likelihood then
    some (if puPresent then NOISE_FLOOR else PU_TRANSMIT_POWER)
  else
    none

/-! ## The cooperating secondary users' vote exchange

`redisen_basic.py` lines 136-171.  A user is identified by its index in
the simulator's fixed user list; `cooperating` models
`isinstance(user, BasicReDiSenSecondaryUser)`. -/

/-- The mutable per-user state that the vote-broadcast pass touches. -/
structure RSUser where
  cooperating : Bool
  votes : List (Nat × ℚ)
  deriving Repr, DecidableEq

/-- `BasicReDiSenSecondaryUser.receive_primary_user_readings`,
`redisen_basic.py` lines 170-171: Python dict assignment
`self.other_user_votes[source] = value`, i.e. overwrite the entry if the
key is present, otherwise append it. -/
def receive_primary_user_readings (votes : List (Nat × ℚ)) (source : Nat) (value : ℚ) :
    List (Nat × ℚ) :=
  if votes.any (fun p => p.1 = source) then
    votes.map (fun p => if p.1 = source then (source, value) else p)
  else
    votes ++ [(source, value)]

/-- One iteration of the loop in `measure_and_send_to_neighbors`
(`redisen_basic.py` lines 145-147): if the user at index `uid` is a
`BasicReDiSenSecondaryUser`, call its `receive_primary_user_readings`. -/
def deliverTo (users : List RSUser) (uid source : Nat) (value : ℚ) : List RSUser :=
  match users.get? uid with
  | none => users
  | some u =>
    if u.cooperating then
      users.set uid { u with votes := receive_primary_user_readings u.votes source value }
    else
      users

/-- `BasicReDiSenSecondaryUser.measure_and_send_to_neighbors`,
`redisen_basic.py` lines 143-147: iterate over the band snapshot (which
contains the sender itself) and deliver the freshly sensed value to
every cooperating user in it. -/
def measure_and_send_to_neighbors (users : List RSUser) (senderId : Nat)
    (band : List Nat) (value : ℚ) : List RSUser :=
  band.foldl (fun us uid => deliverTo us uid senderId value) users

/-! ## The event-queue simulator

`src/cogsim/queue/queue_user.py` and `src/cogsim/queue/queue_simulator.py`. -/

/-- The per-user state of `QueueUser` (`queue_user.py` lines 5-7). -/
structure QueueUser where
  wait_time : ℚ
  wait_time_remaining : ℚ
  deriving Repr, DecidableEq

/-- `QueueUser.__init__`, `queue_user.py` lines 9-13: the constructor
assigns `self.wait_time` only; `wait_time_remaining` keeps the class
attribute value `0.0` whatever interval is configured.  A `none`
argument means the Python default of `1.0`. -/
def QueueUser.init (wait_time : Option ℚ) : QueueUser :=
  { wait_time := wait_time.getD 1, wait_time_remaining := 0 }

/-- `QueueUser.reset_wait_time`, `queue_user.py` lines 15-16. -/
def QueueUser.reset_wait_time (u : QueueUser) : QueueUser :=
  { u with wait_time_remaining := u.wait_time }

/-- `QueueUser.deduct_wait_time`, `queue_user.py` lines 18-19. -/
def QueueUser.deduct_wait_time (u : QueueUser) (amount : ℚ) : QueueUser :=
  { u with wait_time_remaining := u.wait_time_remaining - amount }

/-- The Python exceptions the queue simulator's `step` can raise. -/
inductive PyError where
  | typeError
  | valueError
  deriving Repr, DecidableEq

/-- The simulator state of `QueueSimulator` (`queue_simulator.py` lines
5-14): the user list and the cumulative clock `total_time`. -/
structure QueueSimState where
  users : List QueueUser
  total_time : ℚ
  deriving Repr, DecidableEq

/-- The selection on `queue_simulator.py` line 23:

`min([(u, u.wait_time_remaining) for u in self.users], key=lambda _, t: t)`

The key function `lambda _, t: t` takes TWO positional parameters, but
Python's `min` calls `key` with a single argument (one `(user, time)`
tuple), so the first key invocation raises
`TypeError: <lambda>() missing 1 required positional argument`.  On an
empty user list `min` raises `ValueError: min() arg is an empty
sequence` before the key is ever called.  Consequently the selection
never returns a value. -/
def selectNextUser (users : List QueueUser) : Except PyError (Nat × ℚ) :=
  match users with
  | [] => .error .valueError
  | _ :: _ => .error .typeError

/-- `QueueSimulator.step`, `queue_simulator.py` lines 16-34.  The
intended logic after the selection (reset the selected user, deduct the
minimum from everyone else — the `user == next_user` identity test is
modelled by index — and advance the clock) is embedded faithfully, but
it is unreachable: `selectNextUser` always raises. -/
def queueStep (st : QueueSimState) : Except PyError QueueSimState :=
  match selectNextUser st.users with
  | .error e => .error e
  | .ok (idx, time_to_deduct) =>
    .ok { users := st.users.enum.map (fun p =>
            if p.1 = idx then p.2.reset_wait_time else p.2.deduct_wait_time time_to_deduct),
          total_time := st.total_time + time_to_deduct }

/-! ## The synchronous multi-pass simulator

`src/cogsim/sync/sync_simulator.py` (`SyncSimulator`) and the legacy
flat `cogsim.py` (`Simulator`).  The per-user state is an arbitrary type
`σ` together with a projection `bandOf : σ → Option Int` reading the
user's `current_band` (a Python `int | None`, so possibly negative) and
a step behaviour that may rewrite the whole user list (users mutate
their own fields and may call methods on their peers). -/

/-- `band_contents`, identical in `sync_simulator.py` lines 55-66 and
`cogsim.py` lines 76-87: start from `num_bands` empty lists, walk the
users in list order, skip users whose band is `None`, run
`assert 0 <= user.current_band < self.num_bands`, and append the user
(represented by its index) to its band's list.  A failed assertion
raises `AssertionError`, modelled as `none`. -/
def band_contents (numBands : Nat) : List (Option Int) → Nat → List (List Nat) →
    Option (List (List Nat))
  | [], _, acc => some acc
  | none :: rest, idx, acc => band_contents numBands rest (idx + 1) acc
  | some b :: rest, idx, acc =>
    if 0 ≤ b ∧ b < (numBands : Int) then
      band_contents numBands rest (idx + 1)
        (acc.set b.toNat (acc.getD b.toNat [] ++ [idx]))
    else
      none

/-- The band snapshot of a population: `self.band_contents()` as called
at the top of `step` (`sync_simulator.py` line 37, `cogsim.py` line 66). -/
def bandSnapshot (numBands : Nat) (bands : List (Option Int)) : Option (List (List Nat)) :=
  band_contents numBands bands 0 (List.replicate numBands [])

/-- Python list subscription `l[i]`: non-negative indices are looked up
directly, negative indices wrap once from the end, and anything else
raises `IndexError` (modelled as `none`). -/
def pyIndex (l : List α) (i : Int) : Option α :=
  if 0 ≤ i then l.get? i.toNat
  else if 0 ≤ (l.length : Int) + i then l.get? ((l.length : Int) + i).toNat
  else none

/-- One record of a user-step invocation inside a simulator step: which
user, in which pass, the band it was in at invocation time, and the
membership-list argument the simulator passed it. -/
structure PassEntry where
  userIdx : Nat
  passIdx : Nat
  band : Option Int
  arg : Option (List Nat)
  deriving Repr, DecidableEq

/-- The observable trace of one simulator step: all user-step
invocations, then all metrics-callback invocations
`(userIdx, current_step value passed)`. -/
structure StepTrace where
  passEntries : List PassEntry
  metricsCalls : List (Nat × Nat)
  deriving Repr, DecidableEq

/-- The simulator state shared by both schedulers: the user list and the
running step counter (`current_step`, initialised to 0 in both
`sync_simulator.py` line 29 and `cogsim.py` lines 55-58). -/
structure SyncState (σ : Type) where
  users : List σ
  current_step : Nat
  deriving Repr, DecidableEq

/-- The body of the inner loop of `SyncSimulator.step`
(`sync_simulator.py` lines 41-47): read the user's `current_band` NOW
(it may have been mutated in an earlier pass or by an earlier user of
this pass), subscript the step-initial `band_snapshot` with it (`None`
band means a `None` argument), and invoke the user's step behaviour.
An out-of-range subscription raises `IndexError` (`none`). -/
def runOneUser (stepFn : List σ → Nat → Option (List Nat) → Nat → List σ)
    (bandOf : σ → Option Int) (snap : List (List Nat)) (passIdx : Nat)
    (acc : List σ × List PassEntry) (idx : Nat) : Option (List σ × List PassEntry) :=
  match acc.1.get? idx with
  | none => none
  | some u =>
    match bandOf u with
    | none => some (stepFn acc.1 idx none passIdx, acc.2 ++ [⟨idx, passIdx, none, none⟩])
    | some bi =>
      match pyIndex snap bi with
      | none => none
      | some lst =>
        some (stepFn acc.1 idx (some lst) passIdx, acc.2 ++ [⟨idx, passIdx, some bi, some lst⟩])

/-- Run one pass over the user indices in `idxs` (list order), threading
the user list and the invocation trace; a raised exception aborts. -/
def runUsersList (stepFn : List σ → Nat → Option (List Nat) → Nat → List σ)
    (bandOf : σ → Option Int) (snap : List (List Nat)) (passIdx : Nat)
    (idxs : List Nat) (start : List σ × List PassEntry) :
    Option (List σ × List PassEntry) :=
  idxs.foldl (fun a idx => a.bind (fun acc => runOneUser stepFn bandOf snap passIdx acc idx))
    (some start)

/-- The pass loop of `SyncSimulator.step` (`sync_simulator.py` lines
40-47): `for pass_index in range(self.passes): for user in self.users:`.
The snapshot `snap` is the one local variable computed before the loop
and is never recomputed. -/
def runPasses (stepFn : List σ → Nat → Option (List Nat) → Nat → List σ)
    (bandOf : σ → Option Int) (snap : List (List Nat)) (passes n : Nat)
    (users : List σ) : Option (List σ × List PassEntry) :=
  (List.range passes).foldl
    (fun a p => a.bind (fun acc => runUsersList stepFn bandOf snap p (List.range n) acc))
    (some (users, []))

/-- `SyncSimulator.step`, `sync_simulator.py` lines 31-53: snapshot the
bands once, run all passes against that snapshot, run every user's
`calculate_step_metrics(self.current_step)` (which may mutate the user's
internal state), then increment `current_step` by one. -/
def syncStep (numBands passes : Nat) (bandOf : σ → Option Int)
    (stepFn : List σ → Nat → Option (List Nat) → Nat → List σ)
    (metricsFn : List σ → Nat → Nat → List σ)
    (st : SyncState σ) : Option (SyncState σ × StepTrace) :=
  match bandSnapshot numBands (st.users.map bandOf) with
  | none => none
  | some snap =>
    let n := st.users.length
    match runPasses stepFn bandOf snap passes n st.users with
    | none => none
    | some (users1, entries) =>
      let users2 := (List.range n).foldl (fun us i => metricsFn us i st.current_step) users1
      some (⟨users2, st.current_step + 1⟩,
        ⟨entries, (List.range n).map (fun i => (i, st.current_step))⟩)

/-- `Simulator.step` of the legacy flat `cogsim.py`, lines 60-74: the
same shape with a single implicit pass (`make_decision` has no pass
argument) and — unlike `sync_simulator.py` — NO increment of
`self.current_step` anywhere in the class. -/
def flatStep (numBands : Nat) (bandOf : σ → Option Int)
    (decideFn : List σ → Nat → Option (List Nat) → List σ)
    (metricsFn : List σ → Nat → Nat → List σ)
    (st : SyncState σ) : Option (SyncState σ × StepTrace) :=
  match bandSnapshot numBands (st.users.map bandOf) with
  | none => none
  | some snap =>
    let n := st.users.length
    match runUsersList (fun us idx arg _ => decideFn us idx arg) bandOf snap 0
        (List.range n) (st.users, []) with
    | none => none
    | some (users1, entries) =>
      let users2 := (List.range n).foldl (fun us i => metricsFn us i st.current_step) users1
      some (⟨users2, st.current_step⟩,
        ⟨entries, (List.range n).map (fun i => (i, st.current_step))⟩)

/-- `k` consecutive `SyncSimulator.step()` calls starting from a freshly
constructed simulator (`current_step = 0`, `sync_simulator.py` line 29). -/
def syncRun (numBands passes : Nat) (bandOf : σ → Option Int)
    (stepFn : List σ → Nat → Option (List Nat) → Nat → List σ)
    (metricsFn : List σ → Nat → Nat → List σ)
    (users0 : List σ) : Nat → Option (SyncState σ)
  | 0 => some ⟨users0, 0⟩
  | k + 1 =>
    (syncRun numBands passes bandOf stepFn metricsFn users0 k).bind
      (fun s => (syncStep numBands passes bandOf stepFn metricsFn s).map (fun r => r.1))

/-- `k` consecutive flat `Simulator.step()` calls starting from a freshly
constructed simulator (`reset()` sets `current_step = 0`, `cogsim.py`
lines 55-58). -/
def flatRun (numBands : Nat) (bandOf : σ → Option Int)
    (decideFn : List σ → Nat → Option (List Nat) → List σ)
    (metricsFn : List σ → Nat → Nat → List σ)
    (users0 : List σ) : Nat → Option (SyncState σ)
  | 0 => some ⟨users0, 0⟩
  | k + 1 =>
    (flatRun numBands bandOf decideFn metricsFn users0 k).bind
      (fun s => (flatStep numBands bandOf decideFn metricsFn s).map (fun r => r.1))

/-- Modelled from the spec, §4.4 step 1 / §8: the members of band `j`
are exactly the user indices whose band is `j`, in iteration order,
starting the numbering at `idx`.  Spec side of the `band_contents`
characterization. -/
def membersFrom (j : Nat) : List (Option Int) → Nat → List Nat
  | [], _ => []
  | none :: rest, idx => membersFrom j rest (idx + 1)
  | some b :: rest, idx =>
    if b = (j : Int) then idx :: membersFrom j rest (idx + 1)
    else membersFrom j rest (idx + 1)

/-! ## Theorems -/

/-- Claim C1: the claim states that on exactly-agreeing peer votes the
zero deviation sum is substituted with 1 so every reputation is exactly
2.  On the spec's own example `{A: 10, B: 10, C: 10}` the inline
computation of `CSSUser.step` (`main.py` lines 206-207, embedded as
`cssReputations`) does substitute and yields reputation 2 for every
peer, but `calculate_reputations` (`redisen_basic.py` lines 52-69) has
no such guard: it divides `len(neighbor_values)` by the zero deviation
sum, numpy turns that into `inf` and `2 - inf * 0` into `NaN` (modelled
as `none`), so the claimed substitution is absent there and no peer gets
reputation 2. -/
theorem calculate_reputations_zero_devsum_nan :
    calculate_reputations [(0, 10), (1, 10), (2, 10)] = none ∧
      cssReputations [(0, 10), (1, 10), (2, 10)] = [(0, 2), (1, 2), (2, 2)] := by
  constructor
  · norm_num [calculate_reputations]
  · norm_num [cssReputations]

/-- Folding addition of `f` over a list starting from `a` is `a` plus
the sum of the mapped list. -/
theorem foldl_add_eq_sum (f : α → ℚ) (l : List α) (a : ℚ) :
    l.foldl (fun s x => s + f x) a = a + (l.map f).sum := by
  induction l generalizing a with
  | nil => simp
  | cons x xs ih => simp [ih, add_assoc]

/-- The source's accumulation loop for one round equals the spec's
summed delta. -/
theorem consensusRound_eq_spec (votes reps : List (Nat × ℚ)) (est : ℚ) :
    consensusRound votes reps est = specConsensusRound votes reps est := by
  simp [consensusRound, roundDelta, specConsensusRound, foldl_add_eq_sum]

/-- The final value of the 150-round loop is the iterate of the round
function. -/
theorem consensusLoop_fst (votes reps : List (Nat × ℚ)) :
    ∀ (k : Nat) (est : ℚ),
      (consensusLoop votes reps k est).1 = Nat.iterate (consensusRound votes reps) k est := by
  intro k
  induction k with
  | zero => intro est; rfl
  | succ k ih => intro est; exact ih (consensusRound votes reps est)

/-- Claim C2: in `evaluate_neighbors` the running estimate is
initialised to the caller's own self-report `other_user_votes[self]`
(not to the peer average) and then refined for exactly 150 rounds with
no convergence check, each round adding to the estimate, exactly once,
the single delta accumulated as `(1 - λ) * reputation_i * (value_i -
estimate)` over all peers — i.e. the source loop refines the
spec-modelled iteration `specConsensusIter` started at the self-report. -/
theorem evaluate_neighbors_refines_spec_iteration
    (votes : List (Nat × ℚ)) (selfId : Nat) (v0 : ℚ) (reps : List (Nat × ℚ))
    (hself : lookupVote votes selfId = some v0)
    (hreps : calculate_reputations votes = some reps) :
    (evaluate_neighbors votes selfId).map (fun p => p.1)
        = some (specConsensusIter votes reps 150 v0) ∧
      specConsensusIter votes reps 0 v0 = v0 := by
  refine ⟨?_, rfl⟩
  have hfun : consensusRound votes reps = specConsensusRound votes reps :=
    funext (consensusRound_eq_spec votes reps)
  simp [evaluate_neighbors, hself, hreps, consensusLoop_fst, specConsensusIter, hfun]

/-- Witness for `evaluate_neighbors_refines_spec_iteration` on the
two-peer vote map `{0 ↦ 1, 1 ↦ 3}` with caller 0. -/
theorem evaluate_neighbors_refines_spec_iteration_witness :
    (evaluate_neighbors [(0, 1), (1, 3)] 0).map (fun p => p.1)
        = some (specConsensusIter [(0, 1), (1, 3)] [(0, 1), (1, 1)] 150 1) ∧
      specConsensusIter [(0, 1), (1, 3)] [(0, 1), (1, 1)] 0 1 = 1 :=
  evaluate_neighbors_refines_spec_iteration [(0, 1), (1, 3)] 0 1 [(0, 1), (1, 1)]
    (by norm_num [lookupVote])
    (by rw [calculate_reputations]; norm_num; intro h; simp at h)

/-- On a uniform vote map every vote found by lookup is the common
value. -/
theorem lookupVote_uniform (votes : List (Nat × ℚ)) (v : ℚ)
    (hv : ∀ p ∈ votes, p.2 = v) (k : Nat) (h : (lookupVote votes k).isSome) :
    (lookupVote votes k).getD 0 = v := by
  unfold lookupVote at h ⊢
  cases hfind : votes.find? (fun p => p.1 = k) with
  | none => rw [hfind] at h; simp at h
  | some q =>
    have hq : q ∈ votes := List.mem_of_find?_eq_some hfind
    simp [hfind, hv q hq]

/-- Claim C3: when all peer values equal `v` and the estimate starts at
`v`, every refinement round (both the `main.py` loop `cssRound`, for any
reputation map at all, and the `redisen_basic.py` loop `consensusRound`,
for any reputation map whose keys are vote keys) accumulates a zero
delta and leaves the estimate at exactly `v`, so after all 150 rounds —
and in particular through the guarded full pipeline `cssConsensus` of
`CSSUser.step` — the estimate is still exactly `v`. -/
theorem uniform_votes_fixed_point (votes : List (Nat × ℚ)) (v : ℚ)
    (hne : votes ≠ []) (hv : ∀ p ∈ votes, p.2 = v) :
    (∀ reps : List (Nat × ℚ), cssRound votes reps v = v) ∧
      (∀ reps : List (Nat × ℚ), (∀ p ∈ reps, (lookupVote votes p.1).isSome) →
        consensusRound votes reps v = v) ∧
      (∀ k : Nat, Nat.iterate (cssRound votes (cssReputations votes)) k v = v) ∧
      cssConsensus votes v = v := by
  have hcss : ∀ reps : List (Nat × ℚ), cssRound votes reps v = v := by
    intro reps
    rw [cssRound, foldl_add_eq_sum]
    have hzero : (votes.map (fun p =>
        (1 - DISCOUNT_FACTOR) * ((lookupVote reps p.1).getD 0) * (p.2 - v))).sum = 0 := by
      apply List.sum_eq_zero
      intro x hx
      rcases List.mem_map.mp hx with ⟨p, hp, rfl⟩
      rw [hv p hp]
      ring
    rw [hzero]
    ring
  refine ⟨hcss, ?_, ?_, ?_⟩
  · intro reps hk
    rw [consensusRound, roundDelta, foldl_add_eq_sum]
    have hzero : (reps.map (fun p =>
        (1 - DISCOUNT_FACTOR) * p.2 * ((lookupVote votes p.1).getD 0 - v))).sum = 0 := by
      apply List.sum_eq_zero
      intro x hx
      rcases List.mem_map.mp hx with ⟨p, hp, rfl⟩
      rw [lookupVote_uniform votes v hv p.1 (hk p hp)]
      ring
    rw [hzero]
    ring
  · intro k
    exact Function.iterate_fixed (hcss (cssReputations votes)) k
  · rw [cssConsensus, if_neg hne]
    exact Function.iterate_fixed (hcss (cssReputations votes)) 150

/-- Witness for `uniform_votes_fixed_point` on the exactly-agreeing
two-peer vote map `{0 ↦ 5, 1 ↦ 5}`. -/
theorem uniform_votes_fixed_point_witness :
    cssConsensus [(0, 5), (1, 5)] 5 = 5 :=
  (uniform_votes_fixed_point [(0, 5), (1, 5)] 5 (by simp) (by norm_num)).2.2.2

/-- Claim C5: with attack likelihood 1 every invocation (one fresh
uniform draw `u ∈ [0, 1)` per call) returns the adversarial constant —
the noise floor when a primary user is objectively present, else the
primary's transmit power — as the claim states; but with attack
likelihood 0 the `else` branch of
`MaliciousSecondaryUser.sense_pu_value` computes the honest reading and
returns `None` because the `return` keyword is missing
(`redisen_basic.py` line 198), contradicting the claim that the honest
sensing model's reading is returned. -/
theorem malicious_sense_missing_return (u : ℚ) (puPresent : Bool) :
    (0 ≤ u → malicious_sense_pu_value u 0 puPresent = none) ∧
      (u < 1 → malicious_sense_pu_value u 1 puPresent =
        some (if puPresent then NOISE_FLOOR else PU_TRANSMIT_POWER)) := by
  constructor
  · intro h
    simp [malicious_sense_pu_value, not_lt.mpr h]
  · intro h
    simp [malicious_sense_pu_value, h]

/-- Witness for `malicious_sense_missing_return` at the concrete draw
`u = 1/2`. -/
theorem malicious_sense_missing_return_witness :
    malicious_sense_pu_value (1 / 2) 0 true = none ∧
      malicious_sense_pu_value (1 / 2) 1 true = some NOISE_FLOOR :=
  ⟨(malicious_sense_missing_return (1 / 2) true).1 (by norm_num),
   (malicious_sense_missing_return (1 / 2) true).2 (by norm_num)⟩

/-- Claim C8: the claim describes a minimum-wait selection, wait-time
deduction and clock advance, but `QueueSimulator.step` can never perform
them: the `key=lambda _, t: t` on `queue_simulator.py` line 23 takes two
positional parameters while `min` calls it with a single tuple argument,
so `step()` raises `TypeError` for every non-empty population (and
`ValueError` for an empty one) before any wait time is touched. -/
theorem queue_step_always_raises_type_error (u : QueueUser) (us : List QueueUser) (T : ℚ) :
    queueStep ⟨u :: us, T⟩ = .error .typeError ∧
      queueStep ⟨[], T⟩ = .error .valueError :=
  ⟨rfl, rfl⟩

/-- After overwriting key `s` in a map that already holds it, lookup of
`s` finds the new value. -/
theorem find?_overwrite (s : Nat) (v : ℚ) :
    ∀ votes : List (Nat × ℚ), votes.any (fun p => p.1 = s) = true →
      (votes.map (fun p => if p.1 = s then (s, v) else p)).find? (fun p => p.1 = s)
        = some (s, v) := by
  intro votes h
  induction votes with
  | nil => simp at h
  | cons q qs ih =>
    by_cases hq : q.1 = s
    · simp [List.find?_cons, hq]
    · have hqs : qs.any (fun p => p.1 = s) = true := by
        simpa [List.any_cons, hq] using h
      simp [List.find?_cons, hq, ih hqs]

/-- After appending a fresh entry for key `s`, lookup of `s` finds it. -/
theorem find?_append_new (s : Nat) (v : ℚ) :
    ∀ votes : List (Nat × ℚ), votes.any (fun p => p.1 = s) = false →
      (votes ++ [(s, v)]).find? (fun p => p.1 = s) = some (s, v) := by
  intro votes h
  induction votes with
  | nil => simp [List.find?_cons]
  | cons q qs ih =>
    rw [List.any_cons, Bool.or_eq_false_iff] at h
    have hq : ¬(q.1 = s) := by simpa using h.1
    simp [List.find?_cons, hq, ih h.2]

/-- Python dict assignment (`receive_primary_user_readings`) makes the
assigned key map to the assigned value. -/
theorem lookupVote_receive (votes : List (Nat × ℚ)) (s : Nat) (v : ℚ) :
    lookupVote (receive_primary_user_readings votes s v) s = some v := by
  unfold lookupVote receive_primary_user_readings
  cases hb : votes.any (fun p => p.1 = s) with
  | true => rw [if_pos rfl, find?_overwrite s v votes hb]; rfl
  | false =>
    rw [if_neg (by simp), find?_append_new s v votes hb]; rfl

/-- Unfolding equation of `deliverTo` when the target index exists. -/
theorem deliverTo_get_eq (users : List RSUser) (uid s : Nat) (v : ℚ) (u : RSUser)
    (hu : users.get? uid = some u) :
    deliverTo users uid s v =
      if u.cooperating then
        users.set uid { u with votes := receive_primary_user_readings u.votes s v }
      else users := by
  unfold deliverTo
  rw [hu]

/-- Unfolding equation of `deliverTo` when the target index is absent. -/
theorem deliverTo_get_none (users : List RSUser) (uid s : Nat) (v : ℚ)
    (hu : users.get? uid = none) :
    deliverTo users uid s v = users := by
  unfold deliverTo
  rw [hu]

/-- Delivering the sender's reading to a cooperating user records it in
that user's vote map under the sender's key. -/
theorem deliverTo_cooperating (users : List RSUser) (uid s : Nat) (v : ℚ) (u : RSUser)
    (hu : users.get? uid = some u) (hc : u.cooperating = true) :
    ∃ u', (deliverTo users uid s v).get? uid = some u' ∧
      lookupVote u'.votes s = some v := by
  have hlt : uid < users.length := by
    rcases List.get?_eq_some.mp hu with ⟨h, _⟩
    exact h
  rw [deliverTo_get_eq users uid s v u hu, if_pos hc]
  exact ⟨_, List.get?_set_eq_of_lt _ hlt, lookupVote_receive u.votes s v⟩

/-- A delivery of `(s, v)` anywhere preserves the fact that some user
already holds the vote `(s, v)`. -/
theorem deliverTo_preserves_entry (users : List RSUser) (j uid s : Nat) (v : ℚ)
    (h : ∃ u', users.get? j = some u' ∧ lookupVote u'.votes s = some v) :
    ∃ u'', (deliverTo users uid s v).get? j = some u'' ∧
      lookupVote u''.votes s = some v := by
  rcases h with ⟨u', hj, hv⟩
  cases hu : users.get? uid with
  | none => rw [deliverTo_get_none users uid s v hu]; exact ⟨u', hj, hv⟩
  | some u =>
    rw [deliverTo_get_eq users uid s v u hu]
    by_cases hc : u.cooperating = true
    · rw [if_pos hc]
      by_cases hij : uid = j
      · subst hij
        have hlt : uid < users.length := by
          rcases List.get?_eq_some.mp hu with ⟨h1, _⟩
          exact h1
        exact ⟨_, List.get?_set_eq_of_lt _ hlt, lookupVote_receive u.votes s v⟩
      · rw [List.get?_set_ne _ _ hij]
        exact ⟨u', hj, hv⟩
    · rw [if_neg hc]
      exact ⟨u', hj, hv⟩

/-- A delivery never changes which users exist or whether they are
cooperating (only the target's vote map changes). -/
theorem deliverTo_preserves_coop (users : List RSUser) (j uid s : Nat) (v : ℚ) :
    ((deliverTo users uid s v).get? j).map (fun u => u.cooperating)
      = (users.get? j).map (fun u => u.cooperating) := by
  cases hu : users.get? uid with
  | none => rw [deliverTo_get_none users uid s v hu]
  | some u =>
    rw [deliverTo_get_eq users uid s v u hu]
    by_cases hc : u.cooperating = true
    · rw [if_pos hc]
      by_cases hij : uid = j
      · subst hij
        have hlt : uid < users.length := by
          rcases List.get?_eq_some.mp hu with ⟨h1, _⟩
          exact h1
        rw [List.get?_set_eq_of_lt _ hlt, hu]
        rfl
      · rw [List.get?_set_ne _ _ hij]
    · rw [if_neg hc]

/-- The rest of a broadcast preserves an already-recorded `(s, v)` vote. -/
theorem broadcast_preserves_entry (s : Nat) (v : ℚ) :
    ∀ (band : List Nat) (users : List RSUser) (j : Nat),
      (∃ u', users.get? j = some u' ∧ lookupVote u'.votes s = some v) →
      ∃ u'', (measure_and_send_to_neighbors users s band v).get? j = some u'' ∧
        lookupVote u''.votes s = some v := by
  intro band
  induction band with
  | nil => intro users j h; exact h
  | cons b bs ih =>
    intro users j h
    exact ih (deliverTo users b s v) j (deliverTo_preserves_entry users j b s v h)

/-- A broadcast over a band delivers the sender's value to every
cooperating user in the band. -/
theorem broadcast_delivers (s : Nat) (v : ℚ) :
    ∀ (band : List Nat) (users : List RSUser) (uid : Nat),
      uid ∈ band →
      ((users.get? uid).map (fun u => u.cooperating)) = some true →
      ∃ u', (measure_and_send_to_neighbors users s band v).get? uid = some u' ∧
        lookupVote u'.votes s = some v := by
  intro band
  induction band with
  | nil => intro users uid h; simp at h
  | cons b bs ih =>
    intro users uid hmem hcoop
    rcases List.mem_cons.mp hmem with rfl | hbs
    · rcases Option.map_eq_some'.mp hcoop with ⟨u, hu, hc⟩
      exact broadcast_preserves_entry s v bs (deliverTo users uid s v) uid
        (deliverTo_cooperating users uid s v u hu hc)
    · refine ih (deliverTo users b s v) uid hbs ?_
      rw [deliverTo_preserves_coop]
      exact hcoop

/-- Claim C9: a cooperating secondary user's vote-broadcast pass
(`measure_and_send_to_neighbors`) delivers its sensed value to every
cooperating user in its band snapshot — the snapshot contains the sender
itself, so afterwards the sender's own vote map has an entry keyed by
itself — and `evaluate_neighbors` reads
`self.other_user_votes[self]` as the initial estimate, raising
`KeyError` (modelled `none`) whenever that self-entry is absent. -/
theorem vote_broadcast_includes_self (users : List RSUser) (senderId : Nat)
    (band : List Nat) (v : ℚ) (u : RSUser)
    (hmem : senderId ∈ band)
    (hu : users.get? senderId = some u)
    (hc : u.cooperating = true) :
    (∃ u', (measure_and_send_to_neighbors users senderId band v).get? senderId = some u' ∧
        lookupVote u'.votes senderId = some v) ∧
      (∀ uid u2, uid ∈ band → users.get? uid = some u2 → u2.cooperating = true →
        ∃ u', (measure_and_send_to_neighbors users senderId band v).get? uid = some u' ∧
          lookupVote u'.votes senderId = some v) ∧
      (∀ (votes : List (Nat × ℚ)) (selfId : Nat),
        lookupVote votes selfId = none → evaluate_neighbors votes selfId = none) := by
  refine ⟨?_, ?_, ?_⟩
  · exact broadcast_delivers senderId v band users senderId hmem
      (by rw [hu, Option.map_some', hc])
  · intro uid u2 hmem2 hu2 hc2
    exact broadcast_delivers senderId v band users uid hmem2
      (by rw [hu2, Option.map_some', hc2])
  · intro votes selfId h
    simp [evaluate_neighbors, h]

/-- Witness for `vote_broadcast_includes_self`: two cooperating users
with empty vote maps, sender 0 broadcasting the value 5 over the band
snapshot `[0, 1]` that contains the sender. -/
theorem vote_broadcast_includes_self_witness :
    (∃ u', (measure_and_send_to_neighbors [⟨true, []⟩, ⟨true, []⟩] 0 [0, 1] 5).get? 0
          = some u' ∧ lookupVote u'.votes 0 = some 5) ∧
      (∀ uid u2, uid ∈ [0, 1] →
          ([⟨true, []⟩, ⟨true, []⟩] : List RSUser).get? uid = some u2 →
          u2.cooperating = true →
        ∃ u', (measure_and_send_to_neighbors [⟨true, []⟩, ⟨true, []⟩] 0 [0, 1] 5).get? uid
            = some u' ∧ lookupVote u'.votes 0 = some 5) ∧
      (∀ (votes : List (Nat × ℚ)) (selfId : Nat),
        lookupVote votes selfId = none → evaluate_neighbors votes selfId = none) :=
  vote_broadcast_includes_self [⟨true, []⟩, ⟨true, []⟩] 0 [0, 1] 5 ⟨true, []⟩
    (by simp) rfl rfl

/-- Claim C10: `QueueUser.__init__` assigns only `self.wait_time`, so a
newly constructed queue agent keeps the class-attribute value
`wait_time_remaining = 0.0` whatever interval `w` is configured, and its
remaining wait time becomes the configured interval exactly when
`reset_wait_time` is invoked. -/
theorem queue_user_initial_wait_time_remaining_zero (w : ℚ) :
    (QueueUser.init (some w)).wait_time_remaining = 0 ∧
      (QueueUser.init (some w)).wait_time = w ∧
      ((QueueUser.init (some w)).reset_wait_time).wait_time_remaining = w :=
  ⟨rfl, rfl, rfl⟩

/-- `membersFrom` is the filter-the-indexed-list formulation: the user
indices (in order) whose band entry equals `j`. -/
theorem membersFrom_eq_filter (j : Nat) :
    ∀ (bands : List (Option Int)) (idx : Nat),
      membersFrom j bands idx
        = ((List.enumFrom idx bands).filter
            (fun p => p.2 = some ((j : Nat) : Int))).map Prod.fst := by
  intro bands
  induction bands with
  | nil => intro idx; rfl
  | cons ob rest ih =>
    intro idx
    cases ob with
    | none => simp [membersFrom, List.filter, ih (idx + 1)]
    | some b =>
      by_cases hb : b = (j : Int)
      · simp [membersFrom, hb, List.filter, ih (idx + 1)]
      · simp [membersFrom, hb, List.filter, ih (idx + 1)]

/-- `band_contents` returns `none` (the `assert` raises) exactly when
some present band index is outside `[0, numBands)`. -/
theorem band_contents_none_iff (numBands : Nat) :
    ∀ (bands : List (Option Int)) (idx : Nat) (acc : List (List Nat)),
      band_contents numBands bands idx acc = none ↔
        ∃ b : Int, some b ∈ bands ∧ (b < 0 ∨ (numBands : Int) ≤ b) := by
  intro bands
  induction bands with
  | nil => intro idx acc; simp [band_contents]
  | cons ob rest ih =>
    intro idx acc
    cases ob with
    | none =>
      rw [band_contents, ih (idx + 1) acc]
      constructor
      · rintro ⟨b, hmem, hbad⟩
        exact ⟨b, List.mem_cons_of_mem _ hmem, hbad⟩
      · rintro ⟨b, hmem, hbad⟩
        rcases List.mem_cons.mp hmem with h | h
        · exact absurd h (by simp)
        · exact ⟨b, h, hbad⟩
    | some b =>
      by_cases hv : 0 ≤ b ∧ b < (numBands : Int)
      · rw [band_contents, if_pos hv, ih (idx + 1) _]
        constructor
        · rintro ⟨b2, hmem, hbad⟩
          exact ⟨b2, List.mem_cons_of_mem _ hmem, hbad⟩
        · rintro ⟨b2, hmem, hbad⟩
          rcases List.mem_cons.mp hmem with h | h
          · rcases Option.some.inj h with rfl
            rcases hbad with h1 | h1
            · exact absurd hv.1 (not_le.mpr h1)
            · exact absurd hv.2 (not_lt.mpr h1)
          · exact ⟨b2, h, hbad⟩
      · rw [band_contents, if_neg hv]
        simp only [true_iff]
        rcases not_and_or.mp hv with h1 | h1
        · exact ⟨b, List.mem_cons_self _ _, Or.inl (not_le.mp h1)⟩
        · exact ⟨b, List.mem_cons_self _ _, Or.inr (not_lt.mp h1)⟩

/-- `band_contents` preserves the number of band lists. -/
theorem band_contents_length (numBands : Nat) :
    ∀ (bands : List (Option Int)) (idx : Nat) (acc ls : List (List Nat)),
      band_contents numBands bands idx acc = some ls → ls.length = acc.length := by
  intro bands
  induction bands with
  | nil =>
    intro idx acc ls h
    rcases Option.some.inj h with rfl
    rfl
  | cons ob rest ih =>
    intro idx acc ls h
    cases ob with
    | none => exact ih (idx + 1) acc ls h
    | some b =>
      by_cases hv : 0 ≤ b ∧ b < (numBands : Int)
      · rw [band_contents, if_pos hv] at h
        have := ih (idx + 1) _ ls h
        simpa using this
      · rw [band_contents, if_neg hv] at h
        exact absurd h (by simp)

/-- Accumulator invariant of `band_contents`: every output band list is
its accumulator seed extended by the matching members, in order. -/
theorem band_contents_get (numBands : Nat) :
    ∀ (bands : List (Option Int)) (idx : Nat) (acc ls : List (List Nat)),
      acc.length = numBands →
      band_contents numBands bands idx acc = some ls →
      ∀ j, j < numBands →
        ls.get? j = (acc.get? j).map (fun l => l ++ membersFrom j bands idx) := by
  intro bands
  induction bands with
  | nil =>
    intro idx acc ls hlen h j hj
    rcases Option.some.inj h with rfl
    simp [membersFrom]
  | cons ob rest ih =>
    intro idx acc ls hlen h j hj
    cases ob with
    | none =>
      rw [band_contents] at h
      rw [ih (idx + 1) acc ls hlen h j hj]
      rfl
    | some b =>
      by_cases hv : 0 ≤ b ∧ b < (numBands : Int)
      · rw [band_contents, if_pos hv] at h
        have hv1 := hv.1
        have hv2 := hv.2
        have hlt : b.toNat < acc.length := by omega
        have hlen' : (acc.set b.toNat (acc.getD b.toNat [] ++ [idx])).length = numBands := by
          simpa using hlen
        have ihh := ih (idx + 1) _ ls hlen' h j hj
        by_cases hbj : b.toNat = j
        · subst hbj
          have hbij : b = ((b.toNat : Nat) : Int) := by omega
          obtain ⟨x, hx⟩ : ∃ x, acc.get? b.toNat = some x := by
            cases hx0 : acc.get? b.toNat with
            | none =>
              have := List.get?_eq_none.mp hx0
              omega
            | some x => exact ⟨x, rfl⟩
          have hgd : acc.getD b.toNat [] = x := by
            have hdef : acc.getD b.toNat [] = (acc.get? b.toNat).getD [] := rfl
            rw [hdef, hx]
            rfl
          have hm : membersFrom b.toNat (some b :: rest) idx
              = idx :: membersFrom b.toNat rest (idx + 1) := by
            simp [membersFrom, ← hbij]
          rw [ihh, List.get?_set_eq_of_lt _ hlt, hx, hm, hgd]
          simp [List.append_assoc]
        · have hbij : b ≠ ((j : Nat) : Int) := by omega
          have hm : membersFrom j (some b :: rest) idx = membersFrom j rest (idx + 1) := by
            simp [membersFrom, hbij]
          rw [ihh, List.get?_set_ne _ _ hbj, hm]
      · rw [band_contents, if_neg hv] at h
        exact absurd h (by simp)

/-- Claim C7: band partitioning fails loudly — the `assert` on
`sync_simulator.py` line 64 / `cogsim.py` line 85 raises, modelled
`none` — if and only if some user's present band index lies outside
`[0, num_bands)`; otherwise it returns exactly `num_bands` lists where
list `j` contains, in the simulator's fixed iteration order, exactly
the indices of the users whose band index equals `j` (so users whose
band index is absent appear in no list). -/
theorem band_contents_partition_spec (numBands : Nat) (bands : List (Option Int)) :
    (bandSnapshot numBands bands = none ↔
      ∃ b : Int, some b ∈ bands ∧ (b < 0 ∨ (numBands : Int) ≤ b)) ∧
      ∀ ls, bandSnapshot numBands bands = some ls →
        ls.length = numBands ∧
        ∀ j, j < numBands →
          ls.get? j = some ((bands.enum.filter
            (fun p => p.2 = some ((j : Nat) : Int))).map Prod.fst) := by
  constructor
  · exact band_contents_none_iff numBands bands 0 (List.replicate numBands [])
  · intro ls h
    constructor
    · rw [band_contents_length numBands bands 0 _ ls h]
      simp
    · intro j hj
      have hget := band_contents_get numBands bands 0 _ ls (by simp) h j hj
      have hrep : (List.replicate numBands ([] : List Nat)).get? j = some [] := by
        simp [List.get?_eq_getElem?, List.getElem?_replicate, hj]
      rw [hget, hrep]
      simp [membersFrom_eq_filter, List.enum]

/-- Witness for `band_contents_partition_spec`: two bands, four users
with bands `[0, None, 1, 0]`; the snapshot succeeds, has two lists, and
each list is the index-filter of the input. -/
theorem band_contents_partition_spec_witness :
    ([[0, 3], [2]] : List (List Nat)).length = 2 ∧
      ∀ j, j < 2 → ([[0, 3], [2]] : List (List Nat)).get? j
        = some ((([some 0, none, some 1, some (0 : Int)] : List (Option Int)).enum.filter
            (fun p => p.2 = some ((j : Nat) : Int))).map Prod.fst) :=
  (band_contents_partition_spec 2 [some 0, none, some 1, some 0]).2 [[0, 3], [2]] (by rfl)

/-- Folding an `Option.bind` chain from `none` stays `none`. -/
theorem foldl_bind_none {α β : Type} (g : α → β → Option α) :
    ∀ l : List β, l.foldl (fun a b => a.bind (fun x => g x b)) none = none
  | [] => rfl
  | _ :: bs => foldl_bind_none g bs

/-- Every invocation record appended by `runOneUser` carries, as its
membership argument, exactly the subscription of the (fixed) snapshot
`snap` at the user's band at invocation time. -/
theorem runOneUser_entries {σ : Type} (stepFn : List σ → Nat → Option (List Nat) → Nat → List σ)
    (bandOf : σ → Option Int) (snap : List (List Nat)) (passIdx : Nat)
    (acc : List σ × List PassEntry) (idx : Nat) (out : List σ × List PassEntry)
    (h : runOneUser stepFn bandOf snap passIdx acc idx = some out)
    (hacc : ∀ e ∈ acc.2, e.arg = e.band.bind (pyIndex snap)) :
    ∀ e ∈ out.2, e.arg = e.band.bind (pyIndex snap) := by
  unfold runOneUser at h
  cases hu : acc.1.get? idx with
  | none =>
    simp only [hu] at h
    simp at h
  | some u =>
    simp only [hu] at h
    cases hb : bandOf u with
    | none =>
      simp only [hb] at h
      obtain rfl := Option.some.inj h
      intro e he
      rcases List.mem_append.mp he with h1 | h1
      · exact hacc e h1
      · rcases List.mem_singleton.mp h1 with rfl
        rfl
    | some bi =>
      simp only [hb] at h
      cases hpy : pyIndex snap bi with
      | none =>
        simp only [hpy] at h
        simp at h
      | some lst =>
        simp only [hpy] at h
        obtain rfl := Option.some.inj h
        intro e he
        rcases List.mem_append.mp he with h1 | h1
        · exact hacc e h1
        · rcases List.mem_singleton.mp h1 with rfl
          simp [Option.bind, hpy]

/-- `runUsersList` preserves the snapshot-subscription property of the
trace. -/
theorem runUsersList_entries {σ : Type}
    (stepFn : List σ → Nat → Option (List Nat) → Nat → List σ)
    (bandOf : σ → Option Int) (snap : List (List Nat)) (passIdx : Nat) :
    ∀ (idxs : List Nat) (start out : List σ × List PassEntry),
      runUsersList stepFn bandOf snap passIdx idxs start = some out →
      (∀ e ∈ start.2, e.arg = e.band.bind (pyIndex snap)) →
      ∀ e ∈ out.2, e.arg = e.band.bind (pyIndex snap) := by
  intro idxs
  induction idxs with
  | nil =>
    intro start out h hstart
    obtain rfl := Option.some.inj h
    exact hstart
  | cons i is ih =>
    intro start out h hstart
    rw [runUsersList, List.foldl_cons] at h
    cases hres : runOneUser stepFn bandOf snap passIdx start i with
    | none =>
      rw [show (some start).bind (fun acc => runOneUser stepFn bandOf snap passIdx acc i)
            = none from by rw [Option.some_bind, hres]] at h
      rw [foldl_bind_none] at h
      exact absurd h (by simp)
    | some mid =>
      rw [show (some start).bind (fun acc => runOneUser stepFn bandOf snap passIdx acc i)
            = some mid from by rw [Option.some_bind, hres]] at h
      exact ih mid out h (runOneUser_entries stepFn bandOf snap passIdx start i mid hres hstart)

/-- The pass loop preserves the snapshot-subscription property of the
trace, for any list of pass indices. -/
theorem foldPasses_entries {σ : Type}
    (stepFn : List σ → Nat → Option (List Nat) → Nat → List σ)
    (bandOf : σ → Option Int) (snap : List (List Nat)) (n : Nat) :
    ∀ (ps : List Nat) (start out : List σ × List PassEntry),
      ps.foldl (fun a p =>
          a.bind (fun acc => runUsersList stepFn bandOf snap p (List.range n) acc))
        (some start) = some out →
      (∀ e ∈ start.2, e.arg = e.band.bind (pyIndex snap)) →
      ∀ e ∈ out.2, e.arg = e.band.bind (pyIndex snap) := by
  intro ps
  induction ps with
  | nil =>
    intro start out h hstart
    obtain rfl := Option.some.inj h
    exact hstart
  | cons p ps' ih =>
    intro start out h hstart
    rw [List.foldl_cons] at h
    cases hres : runUsersList stepFn bandOf snap p (List.range n) start with
    | none =>
      rw [show (some start).bind
            (fun acc => runUsersList stepFn bandOf snap p (List.range n) acc)
            = none from by rw [Option.some_bind, hres]] at h
      rw [foldl_bind_none] at h
      exact absurd h (by simp)
    | some mid =>
      rw [show (some start).bind
            (fun acc => runUsersList stepFn bandOf snap p (List.range n) acc)
            = some mid from by rw [Option.some_bind, hres]] at h
      exact ih mid out h
        (runUsersList_entries stepFn bandOf snap p (List.range n) start mid hres hstart)

/-- Claim C4: during one `SyncSimulator.step()`, the membership list
passed to an agent in ANY pass is the subscription, at the agent's band
index at invocation time, of the one band snapshot computed before the
first pass — whatever the agents' step behaviour mutates mid-step.
Band-index changes therefore alter only which snapshot entry an agent
sees, never the entries themselves, and are reflected in band membership
only by the next step's freshly computed snapshot. -/
theorem sync_step_band_args_from_initial_snapshot {σ : Type}
    (numBands passes : Nat) (bandOf : σ → Option Int)
    (stepFn : List σ → Nat → Option (List Nat) → Nat → List σ)
    (metricsFn : List σ → Nat → Nat → List σ)
    (st : SyncState σ) (out : SyncState σ × StepTrace) (snap : List (List Nat))
    (h : syncStep numBands passes bandOf stepFn metricsFn st = some out)
    (hsnap : bandSnapshot numBands (st.users.map bandOf) = some snap) :
    ∀ e ∈ out.2.passEntries, e.arg = e.band.bind (pyIndex snap) := by
  unfold syncStep at h
  simp only [hsnap] at h
  cases hrp : runPasses stepFn bandOf snap passes st.users.length st.users with
  | none =>
    simp only [hrp] at h
    simp at h
  | some pr =>
    obtain ⟨users1, entries⟩ := pr
    simp only [hrp] at h
    obtain rfl := Option.some.inj h
    intro e he
    exact foldPasses_entries stepFn bandOf snap st.users.length (List.range passes)
      (st.users, []) (users1, entries) hrp (by simp) e he

/-- Witness for `sync_step_band_args_from_initial_snapshot`: two users
in band 0 of a 2-band simulator, two passes; user 0 switches to band 1
in pass 0, yet in pass 1 user 1 is still handed the step-initial band-0
list `[0, 1]` (which still names the departed user 0), and user 0 is
handed the step-initial, empty band-1 list. -/
theorem sync_step_band_args_from_initial_snapshot_witness :
    (PassEntry.mk 1 1 (some 0) (some [0, 1])).arg
      = (PassEntry.mk 1 1 (some 0) (some [0, 1])).band.bind (pyIndex [[0, 1], []]) :=
  sync_step_band_args_from_initial_snapshot 2 2 (fun b => b)
    (fun us idx _ p => if idx = 0 ∧ p = 0 then us.set 0 (some 1) else us)
    (fun us _ _ => us)
    ⟨[some 0, some 0], 0⟩
    (⟨[some 1, some 0], 1⟩,
      ⟨[⟨0, 0, some 0, some [0, 1]⟩, ⟨1, 0, some 0, some [0, 1]⟩,
        ⟨0, 1, some 1, some []⟩, ⟨1, 1, some 0, some [0, 1]⟩],
       [(0, 0), (1, 0)]⟩)
    [[0, 1], []]
    (by rfl) (by rfl)
    ⟨1, 1, some 0, some [0, 1]⟩ (by decide)

/-- Claim C6: `SyncSimulator`'s step counter starts at 0, every metrics
callback of a step receives the pre-increment counter value, and
`step()` increments the counter by exactly one after the callbacks, so
after `k` calls the counter equals `k` — but the legacy flat `cogsim.py`
`Simulator`, which the claim also names, never increments
`current_step` anywhere: its metrics callbacks receive the unchanged
counter and after `k` calls the counter is still 0. -/
theorem flat_simulator_step_counter_never_advances {σ : Type}
    (numBands passes : Nat) (bandOf : σ → Option Int)
    (stepFn : List σ → Nat → Option (List Nat) → Nat → List σ)
    (decideFn : List σ → Nat → Option (List Nat) → List σ)
    (metricsFn : List σ → Nat → Nat → List σ) (users0 : List σ) :
    (∀ (st : SyncState σ) (out : SyncState σ × StepTrace),
        syncStep numBands passes bandOf stepFn metricsFn st = some out →
        out.1.current_step = st.current_step + 1 ∧
          ∀ m ∈ out.2.metricsCalls, m.2 = st.current_step) ∧
      (∀ (k : Nat) (s : SyncState σ),
        syncRun numBands passes bandOf stepFn metricsFn users0 k = some s →
        s.current_step = k) ∧
      (∀ (st : SyncState σ) (out : SyncState σ × StepTrace),
        flatStep numBands bandOf decideFn metricsFn st = some out →
        out.1.current_step = st.current_step ∧
          ∀ m ∈ out.2.metricsCalls, m.2 = st.current_step) ∧
      (∀ (k : Nat) (s : SyncState σ),
        flatRun numBands bandOf decideFn metricsFn users0 k = some s →
        s.current_step = 0) := by
  have hsync : ∀ (st : SyncState σ) (out : SyncState σ × StepTrace),
      syncStep numBands passes bandOf stepFn metricsFn st = some out →
      out.1.current_step = st.current_step + 1 ∧
        ∀ m ∈ out.2.metricsCalls, m.2 = st.current_step := by
    intro st out h
    unfold syncStep at h
    cases hs : bandSnapshot numBands (st.users.map bandOf) with
    | none => simp only [hs] at h; simp at h
    | some snap =>
      simp only [hs] at h
      cases hrp : runPasses stepFn bandOf snap passes st.users.length st.users with
      | none => simp only [hrp] at h; simp at h
      | some pr =>
        obtain ⟨users1, entries⟩ := pr
        simp only [hrp] at h
        obtain rfl := Option.some.inj h
        refine ⟨rfl, ?_⟩
        intro m hm
        rcases List.mem_map.mp hm with ⟨i, hi, rfl⟩
        rfl
  have hflat : ∀ (st : SyncState σ) (out : SyncState σ × StepTrace),
      flatStep numBands bandOf decideFn metricsFn st = some out →
      out.1.current_step = st.current_step ∧
        ∀ m ∈ out.2.metricsCalls, m.2 = st.current_step := by
    intro st out h
    unfold flatStep at h
    cases hs : bandSnapshot numBands (st.users.map bandOf) with
    | none => simp only [hs] at h; simp at h
    | some snap =>
      simp only [hs] at h
      cases hrp : runUsersList (fun us idx arg _ => decideFn us idx arg) bandOf snap 0
          (List.range st.users.length) (st.users, []) with
      | none => simp only [hrp] at h; simp at h
      | some pr =>
        obtain ⟨users1, entries⟩ := pr
        simp only [hrp] at h
        obtain rfl := Option.some.inj h
        refine ⟨rfl, ?_⟩
        intro m hm
        rcases List.mem_map.mp hm with ⟨i, hi, rfl⟩
        rfl
  refine ⟨hsync, ?_, hflat, ?_⟩
  · intro k
    induction k with
    | zero =>
      intro s h
      obtain rfl := Option.some.inj h
      rfl
    | succ k ih =>
      intro s h
      simp only [syncRun] at h
      rcases Option.bind_eq_some.mp h with ⟨s', hs', hstep⟩
      rcases Option.map_eq_some'.mp hstep with ⟨out, hout, rfl⟩
      rw [(hsync s' out hout).1, ih s' hs']
  · intro k
    induction k with
    | zero =>
      intro s h
      obtain rfl := Option.some.inj h
      rfl
    | succ k ih =>
      intro s h
      simp only [flatRun] at h
      rcases Option.bind_eq_some.mp h with ⟨s', hs', hstep⟩
      rcases Option.map_eq_some'.mp hstep with ⟨out, hout, rfl⟩
      rw [(hflat s' out hout).1]
      exact ih s' hs'

/-- Witness for `flat_simulator_step_counter_never_advances`: after two
steps of an empty-population simulator, the packaged `SyncSimulator`
counter reads 2 while the flat `cogsim.py` counter still reads 0. -/
theorem flat_simulator_step_counter_never_advances_witness :
    (SyncState.mk ([] : List (Option Int)) 2).current_step = 2 ∧
      (SyncState.mk ([] : List (Option Int)) 0).current_step = 0 :=
  ⟨(flat_simulator_step_counter_never_advances 1 1 (fun b => b)
      (fun us _ _ _ => us) (fun us _ _ => us) (fun us _ _ => us) []).2.1 2
      ⟨[], 2⟩ (by rfl),
    (flat_simulator_step_counter_never_advances 1 1 (fun b => b)
      (fun us _ _ _ => us) (fun us _ _ => us) (fun us _ _ => us) []).2.2.2 2
      ⟨[], 0⟩ (by rfl)⟩
